import Mathlib

/-!
Verification of the sales-coaching worker (front-door router, per-session
sales-agent durable object, finalization workflow) against its specification.

The TypeScript sources are shallowly embedded:
* JavaScript runtime values that flow out of `JSON.parse` / into `JSON.stringify`
  are modelled by the inductive type `Json` (strings as `List Char`); duck-typed
  property access, nullish coalescing, truthiness and the `.length` read are
  modelled explicitly (`jsGet`, `coalesce`, `jsFalsy`, `jsLengthVal`).
* `JSON.parse` is modelled by a fuel-indexed recursive-descent parser
  (`jsonParse?`); numeric literals are modelled by their integer part, which no
  claim depends on.  `JSON.stringify` is modelled by `stringifyJson`.
* The durable object's storage is modelled as `Option AgentState` (the value
  under the `"state"` key, absent before the first write); the load-time
  field-defaulting merge is the identity on such fully-shaped records.
* A model invocation (`env.AI.run`) is an oracle: its outcome is an input of
  the embedded handler, `some v` for a returned value `v`, `none` for a thrown
  failure.  Prompt strings do not constrain the oracle's output, so prompt
  construction is not modelled.
-/

namespace SalesCoach

/-- JavaScript strings are modelled as lists of characters. -/
abbrev Str := List Char

/-- A JavaScript value as produced by `JSON.parse` (and consumed duck-typed). -/
inductive Json where
  | null : Json
  | bool (b : Bool) : Json
  | num (n : Int) : Json
  | str (s : Str) : Json
  | arr (elems : List Json) : Json
  | obj (fields : List (Str × Json)) : Json
deriving Repr

/-- Property lookup on an object's field list; a duplicated key behaves as in
`JSON.parse`, where the last occurrence wins. -/
def fieldLookup (fields : List (Str × Json)) (k : Str) : Option Json :=
  match fields with
  | [] => none
  | (k', v) :: rest =>
    match fieldLookup rest k with
    | some w => some w
    | none => if k' = k then some v else none

/-- Property access `o.k`: `undefined` (here `none`) on every non-object. -/
def jsGet (j : Json) (k : Str) : Option Json :=
  match j with
  | .obj fields => fieldLookup fields k
  | _ => none

/-- Nullish coalescing `v ?? d`: `d` exactly when `v` is `undefined` or `null`. -/
def coalesce (v : Option Json) (d : Json) : Json :=
  match v with
  | some .null => d
  | some x => x
  | none => d

/-- JavaScript falsiness of a value (arrays and objects are always truthy). -/
def jsFalsy : Json → Bool
  | .null => true
  | .bool b => !b
  | .num n => n == 0
  | .str s => s.isEmpty
  | .arr _ => false
  | .obj _ => false

def jsTruthy (j : Json) : Bool := !(jsFalsy j)

/-- The value of `w.length`: the element count for an array, the character
count for a string, the `"length"` property for an object, else `undefined`. -/
def jsLengthVal : Json → Option Json
  | .arr xs => some (.num xs.length)
  | .str s => some (.num s.length)
  | .obj fields => fieldLookup fields "length".toList
  | _ => none

/-- The test `w?.length === 2` of the chat handler's follow-up check. -/
def jsLenIs2 (w : Json) : Bool :=
  match jsLengthVal w with
  | some (.num n) => n == 2
  | _ => false

mutual

/-- `JSON.stringify` on (acyclic) values. -/
def stringifyJson : Json → Str
  | .null => "null".toList
  | .bool true => "true".toList
  | .bool false => "false".toList
  | .num n => (toString n).toList
  | .str s => '"' :: s ++ ['"']
  | .arr xs => '[' :: List.intercalate [','] (stringifyList xs) ++ [']']
  | .obj fs => '\x7b' :: List.intercalate [','] (stringifyFields fs) ++ ['\x7d']

def stringifyList : List Json → List Str
  | [] => []
  | j :: t => stringifyJson j :: stringifyList t

def stringifyFields : List (Str × Json) → List Str
  | [] => []
  | (k, v) :: t => ('"' :: k ++ "\":".toList ++ stringifyJson v) :: stringifyFields t

end

/-! String−searching helpers mirroring `String.prototype.indexOf`,
`lastIndexOf`, `slice`, `trim` and `startsWith`. -/

/-- Whitespace for `trim` (the four characters relevant to this model). -/
def isWsChar (c : Char) : Bool := [' ', '\t', '\n', '\r'].contains c

def skipWs (s : Str) : Str := s.dropWhile isWsChar

/-- `needle` occurs at the start of `s`. -/
def liStartsWith : Str → Str → Bool
  | [], _ => true
  | _ :: _, [] => false
  | a :: as, b :: bs => a == b && liStartsWith as bs

/-- `needle` occurs somewhere inside `s`. -/
def hasSub (needle : Str) : Str → Bool
  | [] => liStartsWith needle []
  | c :: t => liStartsWith needle (c :: t) || hasSub needle t

def firstIdxAux (needle : Str) : Str → Nat → Option Nat
  | [], i => if liStartsWith needle [] then some i else none
  | c :: t, i => if liStartsWith needle (c :: t) then some i else firstIdxAux needle t (i + 1)

/-- `hay.indexOf(needle)`, with `none` for `-1`. -/
def firstIdx (needle hay : Str) : Option Nat := firstIdxAux needle hay 0

/-- `hay.lastIndexOf(needle)`, with `none` for `-1`. -/
def lastIdx (needle hay : Str) : Option Nat :=
  ((List.range (hay.length + 1)).filter (fun i => liStartsWith needle (hay.drop i))).getLast?

/-- `str.trim()` (on the modelled whitespace set). -/
def trimStr (s : Str) : Str :=
  ((((s.dropWhile isWsChar).reverse).dropWhile isWsChar).reverse)

/-- Embeds `extractBetween` of `salesAgentDO.ts`: the trimmed text strictly
between the first `startTag` and the last `endTag`. -/
def extractBetween (text startTag endTag : Str) : Option Str :=
  match firstIdx startTag text, lastIdx endTag text with
  | some si, some ei =>
    if ei ≤ si then none
    else some (trimStr ((text.drop (si + startTag.length)).take (ei - (si + startTag.length))))
  | _, _ => none

/-- Embeds `extractJsonObject` (both copies): the span from the first `\x7b` to
the last `\x7d`, inclusive. -/
def extractJsonObject (text : Str) : Option Str :=
  match firstIdx ['\x7b'] text, lastIdx ['\x7d'] text with
  | some st, some en =>
    if en ≤ st then none else some ((text.drop st).take (en + 1 - st))
  | _, _ => none

/-- Embeds `lastN`: `arr.slice(Math.max(0, arr.length - n))`. -/
def lastN (arr : List α) (n : Nat) : List α := arr.drop (arr.length - n)

/-! A model of `JSON.parse`: fuel-indexed recursive descent. -/

def isDigitChar (c : Char) : Bool := 48 ≤ c.toNat && c.toNat ≤ 57

def hexVal (c : Char) : Option Nat :=
  let n := c.toNat
  if 48 ≤ n && n ≤ 57 then some (n - 48)
  else if 97 ≤ n && n ≤ 102 then some (n - 87)
  else if 65 ≤ n && n ≤ 70 then some (n - 55)
  else none

def escChar (c : Char) : Option Char :=
  if c = '"' then some '"'
  else if c = '\\' then some '\\'
  else if c = '/' then some '/'
  else if c = 'n' then some '\n'
  else if c = 't' then some '\t'
  else if c = 'r' then some '\r'
  else if c = 'b' then some (Char.ofNat 8)
  else if c = 'f' then some (Char.ofNat 12)
  else none

/-- Parses the body of a string literal, the opening quote already consumed. -/
def parseStringBody : Str → Option (Str × Str)
  | [] => none
  | c :: rest =>
    if c = '"' then some ([], rest)
    else if c = '\\' then
      match rest with
      | [] => none
      | e :: r2 =>
        if e = 'u' then
          match r2 with
          | h1 :: h2 :: h3 :: h4 :: r3 =>
            match hexVal h1, hexVal h2, hexVal h3, hexVal h4 with
            | some a, some b, some c4, some d =>
              match parseStringBody r3 with
              | some (tail, rem) => some (Char.ofNat (((a * 16 + b) * 16 + c4) * 16 + d) :: tail, rem)
              | none => none
            | _, _, _, _ => none
          | _ => none
        else
          match escChar e with
          | some ec =>
            match parseStringBody r2 with
            | some (tail, rem) => some (ec :: tail, rem)
            | none => none
          | none => none
    else
      match parseStringBody rest with
      | some (tail, rem) => some (c :: tail, rem)
      | none => none

def digitsToNatAux : Nat → Str → Nat
  | acc, [] => acc
  | acc, c :: t => digitsToNatAux (10 * acc + (c.toNat - 48)) t

def digitsToNat (ds : Str) : Nat := digitsToNatAux 0 ds

/-- Parses a numeric literal; the resulting value is its integer part (no claim
depends on numeric values). -/
def parseNumber (s : Str) : Option (Int × Str) :=
  let p : Bool × Str := if s.head? = some '-' then (true, s.tail) else (false, s)
  let ds := p.2.takeWhile isDigitChar
  let r1 := p.2.dropWhile isDigitChar
  if ds.isEmpty then none
  else
    let r2 := match r1 with
      | '.' :: rr => if (rr.takeWhile isDigitChar).isEmpty then r1 else rr.dropWhile isDigitChar
      | _ => r1
    let r3 := match r2 with
      | e :: rr =>
        if e = 'e' || e = 'E' then
          let rr2 := match rr with
            | sg :: rrr => if sg = '+' || sg = '-' then rrr else rr
            | [] => rr
          if (rr2.takeWhile isDigitChar).isEmpty then r2 else rr2.dropWhile isDigitChar
        else r2
      | [] => r2
    let mag : Int := Int.ofNat (digitsToNat ds)
    some (if p.1 then -mag else mag, r3)

mutual

/-- Parses one JSON value; each recursive call spends one unit of fuel. -/
def parseVal : Nat → Str → Option (Json × Str)
  | 0, _ => none
  | fuel + 1, s =>
    match skipWs s with
    | [] => none
    | c :: rest =>
      if c = '\x7b' then
        match skipWs rest with
        | '\x7d' :: rr => some (.obj [], rr)
        | _ => parseFields fuel rest []
      else if c = '[' then
        match skipWs rest with
        | ']' :: rr => some (.arr [], rr)
        | _ => parseElems fuel rest []
      else if c = '"' then
        match parseStringBody rest with
        | some (lit, rem) => some (.str lit, rem)
        | none => none
      else if c = 't' then
        if liStartsWith "rue".toList rest then some (.bool true, rest.drop 3) else none
      else if c = 'f' then
        if liStartsWith "alse".toList rest then some (.bool false, rest.drop 4) else none
      else if c = 'n' then
        if liStartsWith "ull".toList rest then some (.null, rest.drop 3) else none
      else
        match parseNumber (c :: rest) with
        | some (n, rem) => some (.num n, rem)
        | none => none

/-- Parses the comma-separated elements of a non-empty array. -/
def parseElems : Nat → Str → List Json → Option (Json × Str)
  | 0, _, _ => none
  | fuel + 1, s, acc =>
    match parseVal fuel s with
    | none => none
    | some (v, rem) =>
      match skipWs rem with
      | ',' :: rr => parseElems fuel rr (acc ++ [v])
      | ']' :: rr => some (.arr (acc ++ [v]), rr)
      | _ => none

/-- Parses the comma-separated members of a non-empty object. -/
def parseFields : Nat → Str → List (Str × Json) → Option (Json × Str)
  | 0, _, _ => none
  | fuel + 1, s, acc =>
    match skipWs s with
    | '"' :: r =>
      match parseStringBody r with
      | none => none
      | some (k, rem) =>
        match skipWs rem with
        | ':' :: r2 =>
          match parseVal fuel r2 with
          | none => none
          | some (v, r3) =>
            match skipWs r3 with
            | ',' :: r4 => parseFields fuel r4 (acc ++ [(k, v)])
            | '\x7d' :: r4 => some (.obj (acc ++ [(k, v)]), r4)
            | _ => none
        | _ => none
    | _ => none

end

/-- A model of `JSON.parse`: `none` exactly when `JSON.parse` throws. -/
def jsonParse? (s : Str) : Option Json :=
  match parseVal (s.length + 1) s with
  | some (v, rem) => if (skipWs rem).isEmpty then some v else none
  | none => none

/-- Embeds `safeJsonParse` of `salesAgentDO.ts`: `JSON.parse` with a thrown
failure converted to the JavaScript value `null`. -/
def safeJsonParse (s : Str) : Json :=
  match jsonParse? s with
  | some v => v
  | none => .null

example : jsonParse? "\x7b\"a\": [1, \"x\"]\x7d".toList
    = some (Json.obj [("a".toList, Json.arr [Json.num 1, Json.str "x".toList])]) := rfl

example : jsonParse? "".toList = none := rfl
example : jsonParse? "not json".toList = none := rfl
example : safeJsonParse "null".toList = Json.null := rfl

/-- Embeds `normalizeAIText` (identical in `salesAgentDO.ts` and
`workflows.ts`): coerce a model response of any shape to text. -/
def normalizeAIText (o : Json) : Str :=
  if jsFalsy o then []
  else
    match o with
    | .str s => s
    | _ =>
      match jsGet o "response".toList with
      | some (.str s) => s
      | _ =>
        match jsGet o "output_text".toList with
        | some (.str s) => s
        | _ =>
          match jsGet o "result".toList with
          | some r =>
            match jsGet r "response".toList with
            | some (.str s) => s
            | _ => stringifyJson o
          | none => stringifyJson o

/-! The durable object's data model (`salesAgentDO.ts`). -/

inductive Role where
  | user : Role
  | assistant : Role
deriving Repr

structure Msg where
  role : Role
  content : Json
deriving Repr

/-- `DealMemory`.  The TypeScript annotations promise strings and string
lists, but the unchecked merge can store any parsed value, so every field is
modelled as a `Json` value. -/
structure DealMemory where
  customerName : Json
  company : Json
  industry : Json
  painPoints : Json
  budget : Json
  timeline : Json
  objections : Json
  nextSteps : Json
deriving Repr

def DEFAULT_DEAL_MEMORY : DealMemory :=
  ⟨.str [], .str [], .str [], .arr [], .str [], .str [], .arr [], .arr []⟩

structure AgentState where
  messages : List Msg
  dealMemory : DealMemory
  rollingSummary : Json
  userTurnCount : Nat
  final : Option Json
deriving Repr

def DEFAULT_STATE : AgentState := ⟨[], DEFAULT_DEAL_MEMORY, .str [], 0, none⟩

/-- Embeds `load`: storage models the record under the `"state"` key; absent
storage loads the defaults, and the load-time field-defaulting merge is the
identity on a fully-shaped stored record. -/
def load (storage : Option AgentState) : AgentState := storage.getD DEFAULT_STATE

/-- Embeds the `/internal/save-final` route: load, set `final`, save. -/
def saveFinal (storage : Option AgentState) (f : Json) : Option AgentState :=
  some { load storage with final := some f }

/-- Embeds the `/internal/reset` route: `storage.deleteAll()`. -/
def resetOp (_ : Option AgentState) : Option AgentState := none

/-! The `/internal/chat` pipeline (`salesAgentDO.ts`, lines 114-241). -/

def jsonOpenTag : Str := "<json>".toList

def jsonCloseTag : Str := "</json>".toList

/-- The two-stage extraction `extractBetween(raw, "<json>", "</json>") ??
extractJsonObject(raw)` shared by the reply parse and the memory parse. -/
def extractTagged (raw : Str) : Option Str :=
  match extractBetween raw jsonOpenTag jsonCloseTag with
  | some x => some x
  | none => extractJsonObject raw

def defaultReplyText : Str :=
  "I can help—can you tell me what price point you were expecting?".toList

def fallbackReplyText : Str :=
  "I\x27m having trouble connecting. Could you repeat that?".toList

def genericFollowUp1 : Str := "What\x27s driving that concern?".toList

def genericFollowUp2 : Str := "What would make this a clear yes for you?".toList

def genericFollowUps : Json := .arr [.str genericFollowUp1, .str genericFollowUp2]

/-- Lines 160-169: safe parse of the model's chat output, with the raw-text
fallback when parsing failed and the trimmed text does not start with `\x7b`. -/
def chatParsed (rawText : Str) : Json :=
  let parsed1 := safeJsonParse ((extractTagged rawText).getD [])
  if jsFalsy parsed1 && !(liStartsWith ['\x7b'] (trimStr rawText)) then
    .obj [("reply".toList, .str rawText), ("followUps".toList, .arr [])]
  else parsed1

/-- Line 171: `parsed?.reply ?? <fixed generic reply>`. -/
def chatReply (parsed : Json) : Json :=
  coalesce (jsGet parsed "reply".toList) (.str defaultReplyText)

/-- Lines 172-174: `parsed?.followUps?.length === 2 ? parsed.followUps :
<two generic questions>`. -/
def chatFollowUps (parsed : Json) : Json :=
  match jsGet parsed "followUps".toList with
  | some w => if jsLenIs2 w then w else genericFollowUps
  | none => genericFollowUps

/-- The array-type gate of lines 209, 212, 213. -/
def arrOr (v : Option Json) (d : Json) : Json :=
  match v with
  | some (.arr xs) => .arr xs
  | _ => d

/-- Embeds the field-wise deal-memory merge of lines 205-214. -/
def mergeDealMemory (dm : DealMemory) (p : Json) : DealMemory :=
  { customerName := coalesce (jsGet p "customerName".toList) dm.customerName
    company := coalesce (jsGet p "company".toList) dm.company
    industry := coalesce (jsGet p "industry".toList) dm.industry
    painPoints := arrOr (jsGet p "painPoints".toList) dm.painPoints
    budget := coalesce (jsGet p "budget".toList) dm.budget
    timeline := coalesce (jsGet p "timeline".toList) dm.timeline
    objections := arrOr (jsGet p "objections".toList) dm.objections
    nextSteps := arrOr (jsGet p "nextSteps".toList) dm.nextSteps }

/-- Lines 204-216: the merge runs only when the parsed extraction value is
truthy (`if (memParsed)`), and also refreshes the rolling summary. -/
def memUpdate (dm : DealMemory) (rolling : Json) (memParsed : Json) : DealMemory × Json :=
  if jsTruthy memParsed then
    (mergeDealMemory dm memParsed, coalesce (jsGet memParsed "rollingSummary".toList) rolling)
  else (dm, rolling)

/-- The body of a `/internal/chat` response (`Response.json` has status 200). -/
structure ChatResp where
  reply : Json
  followUps : Json
  dealMemory : DealMemory
  rollingSummary : Json
  userTurnCount : Nat
  status : Nat
deriving Repr

/-- Lines 231-240: the catch-all fallback response; the deal memory is
re-loaded from the (unchanged) storage. -/
def chatCatch (storage : Option AgentState) : ChatResp :=
  ⟨.str fallbackReplyText, .arr [], (load storage).dealMemory, .str [], 0, 200⟩

/-- Embeds the `/internal/chat` handler.  `mainAI` and `extractAI` are the
outcomes of the two model invocations (`none` models a thrown failure); the
second is consulted only on every third user turn.  Returns the response and
the storage after the request (`save` runs once, at the end of the try block). -/
def chatTurn (storage : Option AgentState) (message : Str)
    (mainAI extractAI : Option Json) : ChatResp × Option AgentState :=
  match mainAI with
  | none => (chatCatch storage, storage)
  | some v =>
    let s0 := load storage
    let msgs1 := s0.messages ++ [⟨.user, .str message⟩]
    let turn := s0.userTurnCount + 1
    let parsed := chatParsed (normalizeAIText v)
    let reply := chatReply parsed
    let followUps := chatFollowUps parsed
    if 0 < turn ∧ turn % 3 = 0 then
      match extractAI with
      | none => (chatCatch storage, storage)
      | some w =>
        let memParsed := safeJsonParse ((extractTagged (normalizeAIText w)).getD [])
        let dmRoll := memUpdate s0.dealMemory s0.rollingSummary memParsed
        let s1 : AgentState := ⟨msgs1 ++ [⟨.assistant, reply⟩], dmRoll.1, dmRoll.2, turn, s0.final⟩
        (⟨reply, followUps, dmRoll.1, dmRoll.2, turn, 200⟩, some s1)
    else
      let s1 : AgentState :=
        ⟨msgs1 ++ [⟨.assistant, reply⟩], s0.dealMemory, s0.rollingSummary, turn, s0.final⟩
      (⟨reply, followUps, s0.dealMemory, s0.rollingSummary, turn, 200⟩, some s1)

/-! The finalization workflow (`workflows.ts`). -/

/-- The shared shape of workflow steps 1 and 2: normalize, brace-scan with the
raw text itself as fallback, `JSON.parse` inside try/catch, array-type gate;
the step's default `[]` on a parse failure. -/
def stepArrayField (v : Json) (key : Str) : List Json :=
  let raw := normalizeAIText v
  let j := (extractJsonObject raw).getD raw
  match jsonParse? j with
  | none => []
  | some p =>
    match jsGet p key with
    | some (.arr xs) => xs
    | _ => []

/-- The `Final` record assembled at lines 111-115 of `workflows.ts`. -/
structure FinalRec where
  summaryBullets : List Json
  actionItems : List Json
  followupEmail : Str
deriving Repr

def finalToJson (f : FinalRec) : Json :=
  .obj [("summaryBullets".toList, .arr f.summaryBullets),
        ("actionItems".toList, .arr f.actionItems),
        ("followupEmail".toList, .str f.followupEmail)]

/-- Embeds `FinalizeCallWorkflow.run` for one session: the three model
invocations in order (`none` models a thrown `env.AI.run`); the overall result
is `none` when the run throws (nothing saved), otherwise `some` of the storage
after the `/internal/save-final` call. -/
def finalizeRun (storage : Option AgentState)
    (ai1 ai2 ai3 : Option Json) : Option (Option AgentState) :=
  match ai1, ai2, ai3 with
  | some v1, some v2, some v3 =>
    let bullets := stepArrayField v1 "summaryBullets".toList
    let items := stepArrayField v2 "actionItems".toList
    let email := trimStr (normalizeAIText v3)
    some (saveFinal storage (finalToJson ⟨bullets.take 6, items, email⟩))
  | _, _, _ => none

/-! The front door (`index.ts`). -/

/-- A public HTTP request as the router inspects it: method, path, the
`sessionId` query parameter, and the `sessionId`/`message` body fields (for
routes that read them); `none` models an absent field. -/
structure FrontReq where
  method : String
  path : String
  querySessionId : Option String
  bodySessionId : Option String
  bodyMessage : Option String
deriving Repr

/-- What the front door did with a request. -/
inductive FrontOutcome where
  | chatForward : FrontOutcome
  | usage : FrontOutcome
  | results : FrontOutcome
  | debug : FrontOutcome
  | endCall : FrontOutcome
  | resetCall : FrontOutcome
  | badRequest : FrontOutcome
  | notFound : FrontOutcome
deriving Repr, DecidableEq

/-- Falsiness of a required field: absent (`null`) or the empty string. -/
def strFalsy : Option String → Bool
  | none => true
  | some s => s == ""

/-- Embeds the front-door `fetch` of `index.ts`: the route checks in source
order, returning the response status and what was done.  Forwarded durable
object responses (`Response.json`) have status 200. -/
def frontFetch (r : FrontReq) : Nat × FrontOutcome :=
  if r.path = "/api/chat" ∧ r.method = "POST" then
    if strFalsy r.bodySessionId || strFalsy r.bodyMessage then (400, .badRequest)
    else (200, .chatForward)
  else if r.path = "/" ∧ r.method = "GET" then (200, .usage)
  else if r.path = "/api/results" ∧ r.method = "GET" then
    if strFalsy r.querySessionId then (400, .badRequest) else (200, .results)
  else if r.path = "/api/debug" ∧ r.method = "GET" then
    if strFalsy r.querySessionId then (400, .badRequest) else (200, .debug)
  else if r.path = "/api/end-call" ∧ r.method = "POST" then
    if strFalsy r.bodySessionId then (400, .badRequest) else (200, .endCall)
  else if r.path = "/api/reset" ∧ r.method = "POST" then
    if strFalsy r.bodySessionId then (400, .badRequest) else (200, .resetCall)
  else (404, .notFound)

/-- Modelled from the spec: the five public routes of the interface table in
section 6 (the claim's route list); used only to compare the spec's route
surface with the router embedded from the source. -/
def specPublicRoute (method path : String) : Prop :=
  (method = "POST" ∧ path = "/api/chat") ∨
  (method = "GET" ∧ path = "/api/results") ∨
  (method = "POST" ∧ path = "/api/end-call") ∨
  (method = "POST" ∧ path = "/api/reset") ∨
  (method = "GET" ∧ path = "/")

instance (m p : String) : Decidable (specPublicRoute m p) := by
  unfold specPublicRoute
  infer_instance

/-! Helper lemmas. -/

lemma coalesce_empty (v : Option Json) (d : Json) (h : coalesce v d = Json.str []) :
    d = Json.str [] ∨ v = some (Json.str []) := by
  cases v with
  | none => exact Or.inl h
  | some x =>
    cases x with
    | null => exact Or.inl h
    | str s =>
      have hs : s = [] := by injection h
      subst hs
      exact Or.inr rfl
    | bool b => simp [coalesce] at h
    | num n => simp [coalesce] at h
    | arr xs => simp [coalesce] at h
    | obj fs => simp [coalesce] at h

lemma arrOr_empty (v : Option Json) (d : Json) (h : arrOr v d = Json.arr []) :
    d = Json.arr [] ∨ v = some (Json.arr []) := by
  cases v with
  | none => exact Or.inl h
  | some x =>
    cases x with
    | arr xs =>
      have hs : xs = [] := by injection h
      subst hs
      exact Or.inr rfl
    | null => exact Or.inl h
    | str s => exact Or.inl h
    | bool b => exact Or.inl h
    | num n => exact Or.inl h
    | obj fs => exact Or.inl h

lemma mem_of_liStartsWith_single (a : Char) (l : Str)
    (h : liStartsWith [a] l = true) : a ∈ l := by
  cases l with
  | nil => simp [liStartsWith] at h
  | cons b bs =>
    have hab : a = b := by simpa [liStartsWith] using h
    exact hab ▸ List.mem_cons_self a bs

lemma mem_of_mem_dropWhile (p : Char → Bool) (l : Str) (a : Char)
    (h : a ∈ l.dropWhile p) : a ∈ l := by
  induction l with
  | nil => simp at h
  | cons c t ih =>
    by_cases hc : p c
    · simp only [List.dropWhile, hc] at h
      exact List.mem_cons_of_mem c (ih h)
    · simpa [List.dropWhile, hc] using h

lemma mem_of_mem_trimStr (a : Char) (s : Str) (h : a ∈ trimStr s) : a ∈ s := by
  unfold trimStr at h
  rw [List.mem_reverse] at h
  have h2 := mem_of_mem_dropWhile _ _ _ h
  rw [List.mem_reverse] at h2
  exact mem_of_mem_dropWhile _ _ _ h2

lemma hasSub_single_of_mem (a : Char) (l : Str) (h : a ∈ l) : hasSub [a] l = true := by
  induction l with
  | nil => simp at h
  | cons c t ih =>
    rcases List.mem_cons.mp h with hac | hat
    · subst hac
      simp [hasSub, liStartsWith]
    · simp [hasSub, ih hat]

lemma firstIdxAux_none (needle hay : Str) (h : hasSub needle hay = false) :
    ∀ i, firstIdxAux needle hay i = none := by
  induction hay with
  | nil =>
    intro i
    unfold hasSub at h
    simp [firstIdxAux, h]
  | cons c t ih =>
    intro i
    unfold hasSub at h
    rcases Bool.or_eq_false_iff.mp h with ⟨h1, h2⟩
    simp [firstIdxAux, h1, ih h2]

lemma extractBetween_none (text startTag endTag : Str)
    (h : hasSub startTag text = false) : extractBetween text startTag endTag = none := by
  unfold extractBetween firstIdx
  rw [firstIdxAux_none _ _ h 0]

lemma extractJsonObject_none (text : Str) (h : hasSub ['\x7b'] text = false) :
    extractJsonObject text = none := by
  unfold extractJsonObject firstIdx
  rw [firstIdxAux_none _ _ h 0]

lemma trim_no_brace (text : Str) (hb : hasSub ['\x7b'] text = false) :
    liStartsWith ['\x7b'] (trimStr text) = false := by
  cases hc : liStartsWith ['\x7b'] (trimStr text) with
  | false => rfl
  | true =>
    have hm := mem_of_mem_trimStr _ _ (mem_of_liStartsWith_single _ _ hc)
    rw [hasSub_single_of_mem _ _ hm] at hb
    exact absurd hb (by simp)

lemma chatParsed_fallback (raw : Str) (ht : hasSub jsonOpenTag raw = false)
    (hb : hasSub ['\x7b'] raw = false) :
    chatParsed raw = Json.obj [("reply".toList, .str raw), ("followUps".toList, .arr [])] := by
  unfold chatParsed extractTagged
  rw [extractBetween_none _ _ _ ht, extractJsonObject_none _ hb]
  have h1 : safeJsonParse ((none : Option Str).getD []) = Json.null := rfl
  rw [h1, trim_no_brace _ hb]
  rfl

lemma chatTurn_resp_fields (storage : Option AgentState) (msg : Str) (v w : Json) :
    (chatTurn storage msg (some v) (some w)).1.reply
      = chatReply (chatParsed (normalizeAIText v)) ∧
    (chatTurn storage msg (some v) (some w)).1.followUps
      = chatFollowUps (chatParsed (normalizeAIText v)) := by
  simp only [chatTurn]
  split <;> exact ⟨rfl, rfl⟩

/-! Claim theorems. -/

/-- The concrete session state used by the C1 counterexample: two user turns
already taken (so the next turn triggers memory extraction), a populated
`customerName` and a populated `painPoints`. -/
def c1State : AgentState :=
  { DEFAULT_STATE with
    userTurnCount := 2
    dealMemory := { DEFAULT_DEAL_MEMORY with
      customerName := .str "Alice".toList
      painPoints := .arr [.str "cost".toList] } }

/-- C1 (counterexample): a chat turn whose memory extraction returns a tagged
JSON object carrying an explicit empty string and empty list DOES set the
populated `customerName` and `painPoints` back to empty — the claim that only
an explicit reset can empty a populated field is false on the code. -/
theorem merge_empties_populated_fields_cx :
    (load (some c1State)).dealMemory.customerName = Json.str "Alice".toList ∧
    (load (some c1State)).dealMemory.painPoints = Json.arr [Json.str "cost".toList] ∧
    ∃ s1, (chatTurn (some c1State) "hi".toList (some (Json.str "ok".toList))
        (some (Json.str
          "<json>\x7b\"customerName\": \"\", \"painPoints\": []\x7d</json>".toList))).2
      = some s1 ∧
      s1.dealMemory.customerName = Json.str [] ∧
      s1.dealMemory.painPoints = Json.arr [] :=
  ⟨rfl, rfl, ⟨_, rfl, rfl, rfl⟩⟩

/-- C1 (amended): the memory merge empties a DealMemory field only when the
extraction result explicitly supplies the empty value for it (the empty string
for a string field, an empty array for a list field); an extraction that omits
the field, or supplies `null`, never empties a populated field. -/
theorem merge_empty_only_if_supplied (dm : DealMemory) (p : Json) :
    ((mergeDealMemory dm p).customerName = Json.str [] →
      dm.customerName = Json.str [] ∨ jsGet p "customerName".toList = some (Json.str [])) ∧
    ((mergeDealMemory dm p).company = Json.str [] →
      dm.company = Json.str [] ∨ jsGet p "company".toList = some (Json.str [])) ∧
    ((mergeDealMemory dm p).industry = Json.str [] →
      dm.industry = Json.str [] ∨ jsGet p "industry".toList = some (Json.str [])) ∧
    ((mergeDealMemory dm p).budget = Json.str [] →
      dm.budget = Json.str [] ∨ jsGet p "budget".toList = some (Json.str [])) ∧
    ((mergeDealMemory dm p).timeline = Json.str [] →
      dm.timeline = Json.str [] ∨ jsGet p "timeline".toList = some (Json.str [])) ∧
    ((mergeDealMemory dm p).painPoints = Json.arr [] →
      dm.painPoints = Json.arr [] ∨ jsGet p "painPoints".toList = some (Json.arr [])) ∧
    ((mergeDealMemory dm p).objections = Json.arr [] →
      dm.objections = Json.arr [] ∨ jsGet p "objections".toList = some (Json.arr [])) ∧
    ((mergeDealMemory dm p).nextSteps = Json.arr [] →
      dm.nextSteps = Json.arr [] ∨ jsGet p "nextSteps".toList = some (Json.arr [])) :=
  ⟨fun h => coalesce_empty _ _ h, fun h => coalesce_empty _ _ h,
   fun h => coalesce_empty _ _ h, fun h => coalesce_empty _ _ h,
   fun h => coalesce_empty _ _ h, fun h => arrOr_empty _ _ h,
   fun h => arrOr_empty _ _ h, fun h => arrOr_empty _ _ h⟩

/-- C1 (witness for the amended theorem, at the default memory and the empty
extraction object). -/
theorem merge_empty_only_if_supplied_witness :
    (DEFAULT_DEAL_MEMORY.customerName = Json.str [] ∨
      jsGet (Json.obj []) "customerName".toList = some (Json.str [])) ∧
    (DEFAULT_DEAL_MEMORY.painPoints = Json.arr [] ∨
      jsGet (Json.obj []) "painPoints".toList = some (Json.arr [])) :=
  ⟨(merge_empty_only_if_supplied DEFAULT_DEAL_MEMORY (Json.obj [])).1 rfl,
   (merge_empty_only_if_supplied DEFAULT_DEAL_MEMORY (Json.obj [])).2.2.2.2.2.1 rfl⟩

/-- C4: the deal-memory merge retains every field the extraction result does
not provide: merging an unparseable output (`safeJsonParse` yields the falsy
`null`, so the merge is skipped) or an empty object leaves DealMemory (and the
rolling summary) unchanged; a string field whose key is absent is retained,
and a list field is retained unless the new value is an actual array. -/
theorem merge_retains_absent_fields (dm : DealMemory) (rolling : Json) (p : Json) :
    memUpdate dm rolling Json.null = (dm, rolling) ∧
    mergeDealMemory dm (Json.obj []) = dm ∧
    (jsGet p "customerName".toList = none →
      (mergeDealMemory dm p).customerName = dm.customerName) ∧
    (jsGet p "company".toList = none → (mergeDealMemory dm p).company = dm.company) ∧
    (jsGet p "industry".toList = none → (mergeDealMemory dm p).industry = dm.industry) ∧
    (jsGet p "budget".toList = none → (mergeDealMemory dm p).budget = dm.budget) ∧
    (jsGet p "timeline".toList = none → (mergeDealMemory dm p).timeline = dm.timeline) ∧
    ((∀ xs, jsGet p "painPoints".toList ≠ some (Json.arr xs)) →
      (mergeDealMemory dm p).painPoints = dm.painPoints) ∧
    ((∀ xs, jsGet p "objections".toList ≠ some (Json.arr xs)) →
      (mergeDealMemory dm p).objections = dm.objections) ∧
    ((∀ xs, jsGet p "nextSteps".toList ≠ some (Json.arr xs)) →
      (mergeDealMemory dm p).nextSteps = dm.nextSteps) := by
  refine ⟨rfl, rfl, ?_, ?_, ?_, ?_, ?_, ?_, ?_, ?_⟩
  · intro h
    show coalesce (jsGet p "customerName".toList) dm.customerName = dm.customerName
    rw [h]
    rfl
  · intro h
    show coalesce (jsGet p "company".toList) dm.company = dm.company
    rw [h]
    rfl
  · intro h
    show coalesce (jsGet p "industry".toList) dm.industry = dm.industry
    rw [h]
    rfl
  · intro h
    show coalesce (jsGet p "budget".toList) dm.budget = dm.budget
    rw [h]
    rfl
  · intro h
    show coalesce (jsGet p "timeline".toList) dm.timeline = dm.timeline
    rw [h]
    rfl
  · intro h
    show arrOr (jsGet p "painPoints".toList) dm.painPoints = dm.painPoints
    cases hv : jsGet p "painPoints".toList with
    | none => rfl
    | some x =>
      cases x with
      | arr xs => exact absurd hv (h xs)
      | null => rfl
      | bool b => rfl
      | num n => rfl
      | str s => rfl
      | obj fs => rfl
  · intro h
    show arrOr (jsGet p "objections".toList) dm.objections = dm.objections
    cases hv : jsGet p "objections".toList with
    | none => rfl
    | some x =>
      cases x with
      | arr xs => exact absurd hv (h xs)
      | null => rfl
      | bool b => rfl
      | num n => rfl
      | str s => rfl
      | obj fs => rfl
  · intro h
    show arrOr (jsGet p "nextSteps".toList) dm.nextSteps = dm.nextSteps
    cases hv : jsGet p "nextSteps".toList with
    | none => rfl
    | some x =>
      cases x with
      | arr xs => exact absurd hv (h xs)
      | null => rfl
      | bool b => rfl
      | num n => rfl
      | str s => rfl
      | obj fs => rfl

/-- C4 (witness, at the default memory and the empty extraction object). -/
theorem merge_retains_absent_fields_witness :
    memUpdate DEFAULT_DEAL_MEMORY (Json.str []) Json.null
      = (DEFAULT_DEAL_MEMORY, Json.str []) ∧
    mergeDealMemory DEFAULT_DEAL_MEMORY (Json.obj []) = DEFAULT_DEAL_MEMORY ∧
    (mergeDealMemory DEFAULT_DEAL_MEMORY (Json.obj [])).customerName
      = DEFAULT_DEAL_MEMORY.customerName ∧
    (mergeDealMemory DEFAULT_DEAL_MEMORY (Json.obj [])).painPoints
      = DEFAULT_DEAL_MEMORY.painPoints := by
  have h := merge_retains_absent_fields DEFAULT_DEAL_MEMORY (Json.str []) (Json.obj [])
  exact ⟨h.1, h.2.1, h.2.2.1 rfl,
    h.2.2.2.2.2.2.2.1 (fun xs hx => Option.noConfusion hx)⟩

lemma lenIs2_arr (xs : List Json) (h : jsLenIs2 (Json.arr xs) = true) : xs.length = 2 := by
  simp [jsLenIs2, jsLengthVal] at h
  omega

lemma lenIs2_val (w : Json) (h : jsLenIs2 w = true) : jsLengthVal w = some (Json.num 2) := by
  unfold jsLenIs2 at h
  cases hl : jsLengthVal w with
  | none => rw [hl] at h; simp at h
  | some x =>
    rw [hl] at h
    cases x with
    | num n =>
      have hn : n = 2 := by simpa using h
      rw [hn]
    | null => simp at h
    | bool b => simp at h
    | str s => simp at h
    | arr ys => simp at h
    | obj fs => simp at h

lemma chatFollowUps_of_none (parsed : Json)
    (h : jsGet parsed "followUps".toList = none) :
    chatFollowUps parsed = genericFollowUps := by
  unfold chatFollowUps
  rw [h]

lemma chatFollowUps_of_some (parsed w : Json)
    (h : jsGet parsed "followUps".toList = some w) :
    chatFollowUps parsed = if jsLenIs2 w = true then w else genericFollowUps := by
  unfold chatFollowUps
  rw [h]

lemma chatFollowUps_shape (parsed : Json) :
    (∃ xs, chatFollowUps parsed = Json.arr xs ∧ xs.length = 2) ∨
    ((∀ xs, chatFollowUps parsed ≠ Json.arr xs) ∧
      jsLengthVal (chatFollowUps parsed) = some (Json.num 2)) := by
  cases hv : jsGet parsed "followUps".toList with
  | none => exact Or.inl ⟨_, chatFollowUps_of_none parsed hv, rfl⟩
  | some w =>
    rw [chatFollowUps_of_some parsed w hv]
    by_cases h2 : jsLenIs2 w = true
    · rw [if_pos h2]
      cases w with
      | arr xs => exact Or.inl ⟨xs, rfl, lenIs2_arr xs h2⟩
      | null => exact absurd h2 (by simp [jsLenIs2, jsLengthVal])
      | bool b => exact absurd h2 (by simp [jsLenIs2, jsLengthVal])
      | num n => exact absurd h2 (by simp [jsLenIs2, jsLengthVal])
      | str s => exact Or.inr ⟨(fun xs hx => nomatch hx), lenIs2_val _ h2⟩
      | obj fs => exact Or.inr ⟨(fun xs hx => nomatch hx), lenIs2_val _ h2⟩
    · rw [if_neg h2]
      exact Or.inl ⟨_, rfl, rfl⟩

/-- C2 (counterexample): the chat response's `followUps` does NOT always have
exactly 2 entries.  A thrown model invocation lands in the catch fallback,
whose `followUps` is the empty array; and a model output whose `followUps` is
the 2-character string "ab" passes the `length === 2` check and is passed
through verbatim — a string, not a 2-entry list. -/
theorem followUps_not_two_cx :
    (chatTurn none "m".toList none none).1.followUps = Json.arr [] ∧
    (chatTurn none "m".toList
      (some (Json.str "\x7b\"followUps\":\"ab\"\x7d".toList)) none).1.followUps
      = Json.str "ab".toList :=
  ⟨rfl, rfl⟩

/-- C2 (amended): when neither model invocation throws, the response's
`followUps` always passes the `length === 2` check: it is an array of exactly 2
entries, except that a non-array model value whose JavaScript `length` equals 2
(such as a 2-character string) is passed through verbatim; a thrown failure
instead yields the catch fallback's empty `followUps` list. -/
theorem followUps_shape (storage : Option AgentState) (msg : Str) (v w : Json) :
    (∃ xs, (chatTurn storage msg (some v) (some w)).1.followUps = Json.arr xs ∧
      xs.length = 2) ∨
    ((∀ xs, (chatTurn storage msg (some v) (some w)).1.followUps ≠ Json.arr xs) ∧
      jsLengthVal ((chatTurn storage msg (some v) (some w)).1.followUps)
        = some (Json.num 2)) := by
  rw [(chatTurn_resp_fields storage msg v w).2]
  exact chatFollowUps_shape _

/-- C7: when the model's chat output is non-empty text with no `<json>` tag
and no braces, the reply is the raw text and the follow-ups are the two fixed
generic questions. -/
theorem chat_malformed_text_fallback (storage : Option AgentState) (msg text : Str)
    (w : Json) (hne : text ≠ [])
    (ht : hasSub jsonOpenTag text = false)
    (hb1 : hasSub ['\x7b'] text = false)
    (hb2 : hasSub ['\x7d'] text = false) :
    (chatTurn storage msg (some (Json.str text)) (some w)).1.reply = Json.str text ∧
    (chatTurn storage msg (some (Json.str text)) (some w)).1.followUps
      = genericFollowUps := by
  have hn : normalizeAIText (Json.str text) = text := by
    cases text with
    | nil => exact absurd rfl hne
    | cons c t => rfl
  obtain ⟨hr, hf⟩ := chatTurn_resp_fields storage msg (Json.str text) w
  rw [hn, chatParsed_fallback text ht hb1] at hr hf
  exact ⟨hr, hf⟩

/-- C7 (witness, at the brace-free model output "hello"). -/
theorem chat_malformed_text_fallback_witness :
    (chatTurn none "m".toList (some (Json.str "hello".toList)) (some Json.null)).1.reply
      = Json.str "hello".toList ∧
    (chatTurn none "m".toList (some (Json.str "hello".toList)) (some Json.null)).1.followUps
      = genericFollowUps :=
  chat_malformed_text_fallback none "m".toList "hello".toList Json.null
    (by decide) (by decide) (by decide) (by decide)

/-- A session state with two user turns taken, used by witnesses that need the
next turn to trigger memory extraction. -/
def turn2State : AgentState := { DEFAULT_STATE with userTurnCount := 2 }

/-- C6: whichever model invocation throws (the main call, or the extraction
call on a third turn), the chat handler responds with the fixed apologetic
reply, empty follow-ups, the deal memory re-loaded from the unchanged storage
(the defaults when no state was ever persisted), and status 200. -/
theorem chat_catch_fallback (storage : Option AgentState) (msg : Str)
    (a2 : Option Json) (v : Json) :
    ((chatTurn storage msg none a2).1.reply = Json.str fallbackReplyText ∧
      (chatTurn storage msg none a2).1.followUps = Json.arr [] ∧
      (chatTurn storage msg none a2).1.dealMemory = (load storage).dealMemory ∧
      (chatTurn storage msg none a2).1.status = 200) ∧
    (((load storage).userTurnCount + 1) % 3 = 0 →
      (chatTurn storage msg (some v) none).1.reply = Json.str fallbackReplyText ∧
      (chatTurn storage msg (some v) none).1.followUps = Json.arr [] ∧
      (chatTurn storage msg (some v) none).1.dealMemory = (load storage).dealMemory ∧
      (chatTurn storage msg (some v) none).1.status = 200) ∧
    (load none).dealMemory = DEFAULT_DEAL_MEMORY := by
  refine ⟨⟨rfl, rfl, rfl, rfl⟩, fun h => ?_, rfl⟩
  simp only [chatTurn]
  rw [if_pos (show 0 < (load storage).userTurnCount + 1 ∧
    ((load storage).userTurnCount + 1) % 3 = 0 from ⟨Nat.succ_pos _, h⟩)]
  exact ⟨rfl, rfl, rfl, rfl⟩

/-- C6 (witness, with the extraction call throwing on a third turn). -/
theorem chat_catch_fallback_witness :
    (chatTurn (some turn2State) "m".toList none none).1.reply
      = Json.str fallbackReplyText ∧
    (chatTurn (some turn2State) "m".toList (some Json.null) none).1.reply
      = Json.str fallbackReplyText ∧
    (chatTurn (some turn2State) "m".toList (some Json.null) none).1.followUps
      = Json.arr [] := by
  have h := chat_catch_fallback (some turn2State) "m".toList none Json.null
  exact ⟨h.1.1, (h.2.1 rfl).1, (h.2.1 rfl).2.1⟩

/-- C9: when the chat pipeline throws (either model invocation fails), the
persisted storage is exactly what it was before the request — the appended
message, incremented counter and any merge are discarded, because `save` runs
only once, at the end of the try block. -/
theorem chat_throw_leaves_state (storage : Option AgentState) (msg : Str)
    (a2 : Option Json) (v : Json) :
    (chatTurn storage msg none a2).2 = storage ∧
    (((load storage).userTurnCount + 1) % 3 = 0 →
      (chatTurn storage msg (some v) none).2 = storage) := by
  refine ⟨rfl, fun h => ?_⟩
  simp only [chatTurn]
  rw [if_pos (show 0 < (load storage).userTurnCount + 1 ∧
    ((load storage).userTurnCount + 1) % 3 = 0 from ⟨Nat.succ_pos _, h⟩)]

/-- C9 (witness, with the extraction call throwing on a third turn). -/
theorem chat_throw_leaves_state_witness :
    (chatTurn (some turn2State) "m".toList none none).2 = some turn2State ∧
    (chatTurn (some turn2State) "m".toList (some Json.null) none).2 = some turn2State := by
  have h := chat_throw_leaves_state (some turn2State) "m".toList none Json.null
  exact ⟨h.1, h.2 rfl⟩

lemma jsGet_finalToJson_sum (f : FinalRec) :
    jsGet (finalToJson f) "summaryBullets".toList = some (Json.arr f.summaryBullets) := rfl

lemma jsGet_finalToJson_act (f : FinalRec) :
    jsGet (finalToJson f) "actionItems".toList = some (Json.arr f.actionItems) := rfl

lemma jsGet_finalToJson_email (f : FinalRec) :
    jsGet (finalToJson f) "followupEmail".toList = some (Json.str f.followupEmail) := rfl

/-- C3 (counterexample): a thrown model invocation in step 1 of the
finalization workflow is NOT caught: the whole run throws and nothing is
written to the session store, refuting the claim that a failing model
invocation is replaced by the step's default while the rest still runs. -/
theorem finalize_throwing_step_aborts_cx :
    finalizeRun none none (some Json.null) (some Json.null) = none := rfl

/-- C3 (amended): when all three model invocations return (possibly garbage),
an unparseable output in the summary or action-item step is caught and
replaced by that step's default empty list, the remaining steps still run, and
the assembled result is written to the session's `final`; a thrown model
invocation, by contrast, aborts the run with nothing written. -/
theorem finalize_parse_failures_isolated (storage : Option AgentState) (v1 v2 v3 : Json) :
    ∃ st fj, finalizeRun storage (some v1) (some v2) (some v3) = some (some st) ∧
      st.final = some fj ∧
      (jsonParse? ((extractJsonObject (normalizeAIText v1)).getD (normalizeAIText v1)) = none →
        jsGet fj "summaryBullets".toList = some (Json.arr [])) ∧
      (jsonParse? ((extractJsonObject (normalizeAIText v2)).getD (normalizeAIText v2)) = none →
        jsGet fj "actionItems".toList = some (Json.arr [])) ∧
      jsGet fj "followupEmail".toList = some (Json.str (trimStr (normalizeAIText v3))) := by
  refine ⟨_, _, rfl, rfl, ?_, ?_, ?_⟩
  · intro h
    have hb : stepArrayField v1 "summaryBullets".toList = [] := by
      simp only [stepArrayField]
      rw [h]
    rw [jsGet_finalToJson_sum, hb]
    rfl
  · intro h
    have hb : stepArrayField v2 "actionItems".toList = [] := by
      simp only [stepArrayField]
      rw [h]
    rw [jsGet_finalToJson_act, hb]
  · exact jsGet_finalToJson_email _

/-- C3 (witness, with unparseable step-1 and step-2 outputs). -/
theorem finalize_parse_failures_isolated_witness :
    ∃ st fj, finalizeRun none (some (Json.str "x".toList)) (some (Json.str "y".toList))
        (some (Json.str " hi ".toList)) = some (some st) ∧
      st.final = some fj ∧
      jsGet fj "summaryBullets".toList = some (Json.arr []) ∧
      jsGet fj "actionItems".toList = some (Json.arr []) ∧
      jsGet fj "followupEmail".toList = some (Json.str "hi".toList) := by
  obtain ⟨st, fj, h1, h2, h3, h4, h5⟩ :=
    finalize_parse_failures_isolated none (Json.str "x".toList) (Json.str "y".toList)
      (Json.str " hi ".toList)
  exact ⟨st, fj, h1, h2, h3 rfl, h4 rfl, h5⟩

/-- C8: whenever a finalization run completes, the `summaryBullets` list inside
the `final` value written to the session has at most 6 entries (the assembly
truncates with `slice(0, 6)`). -/
theorem final_bullets_at_most_six (storage : Option AgentState) (a1 a2 a3 : Option Json)
    (st : Option AgentState) (h : finalizeRun storage a1 a2 a3 = some st) :
    ∃ s1 fj xs, st = some s1 ∧ s1.final = some fj ∧
      jsGet fj "summaryBullets".toList = some (Json.arr xs) ∧ xs.length ≤ 6 := by
  cases a1 with
  | none => exact absurd h (by simp [finalizeRun])
  | some v1 =>
    cases a2 with
    | none => exact absurd h (by simp [finalizeRun])
    | some v2 =>
      cases a3 with
      | none => exact absurd h (by simp [finalizeRun])
      | some v3 =>
        have hst : st = saveFinal storage (finalToJson
            ⟨(stepArrayField v1 "summaryBullets".toList).take 6,
              stepArrayField v2 "actionItems".toList,
              trimStr (normalizeAIText v3)⟩) := (Option.some.inj h).symm
        subst hst
        refine ⟨_, _, (stepArrayField v1 "summaryBullets".toList).take 6,
          rfl, rfl, jsGet_finalToJson_sum _, ?_⟩
        have := List.length_take 6 (stepArrayField v1 "summaryBullets".toList)
        omega

/-- C8 (witness, with a model summary of 8 bullets truncated to 6). -/
theorem final_bullets_at_most_six_witness :
    ∃ s1 fj xs, finalizeRun none
        (some (Json.str
          "\x7b\"summaryBullets\":[\"a\",\"b\",\"c\",\"d\",\"e\",\"f\",\"g\",\"h\"]\x7d".toList))
        (some Json.null) (some Json.null) = some (some s1) ∧
      s1.final = some fj ∧
      jsGet fj "summaryBullets".toList = some (Json.arr xs) ∧ xs.length ≤ 6 := by
  obtain ⟨s1, fj, xs, h1, h2, h3, h4⟩ :=
    final_bullets_at_most_six none
      (some (Json.str
        "\x7b\"summaryBullets\":[\"a\",\"b\",\"c\",\"d\",\"e\",\"f\",\"g\",\"h\"]\x7d".toList))
      (some Json.null) (some Json.null) _ rfl
  refine ⟨s1, fj, xs, ?_, h2, h3, h4⟩
  rw [← h1]
  rfl

/-- C5 (counterexample): `GET /api/debug` is not one of the five public routes
of the interface table, yet the front door serves it (status 200, the session
state) instead of returning 404. -/
theorem router_debug_route_cx :
    ¬ specPublicRoute "GET" "/api/debug" ∧
    (frontFetch ⟨"GET", "/api/debug", some "x", none, none⟩).1 = 200 :=
  ⟨by decide, rfl⟩

/-- C5 (amended): every request whose method and path match neither one of the
five public routes nor the additional debug route `GET /api/debug` gets
status 404 from the front door. -/
theorem router_unknown_404 (r : FrontReq)
    (h1 : ¬ specPublicRoute r.method r.path)
    (h2 : ¬ (r.method = "GET" ∧ r.path = "/api/debug")) :
    (frontFetch r).1 = 404 := by
  obtain ⟨m, p, q, bs, bm⟩ := r
  have n1 : ¬(p = "/api/chat" ∧ m = "POST") := fun hx => h1 (Or.inl ⟨hx.2, hx.1⟩)
  have n2 : ¬(p = "/" ∧ m = "GET") :=
    fun hx => h1 (Or.inr (Or.inr (Or.inr (Or.inr ⟨hx.2, hx.1⟩))))
  have n3 : ¬(p = "/api/results" ∧ m = "GET") := fun hx => h1 (Or.inr (Or.inl ⟨hx.2, hx.1⟩))
  have n4 : ¬(p = "/api/debug" ∧ m = "GET") := fun hx => h2 ⟨hx.2, hx.1⟩
  have n5 : ¬(p = "/api/end-call" ∧ m = "POST") :=
    fun hx => h1 (Or.inr (Or.inr (Or.inl ⟨hx.2, hx.1⟩)))
  have n6 : ¬(p = "/api/reset" ∧ m = "POST") :=
    fun hx => h1 (Or.inr (Or.inr (Or.inr (Or.inl ⟨hx.2, hx.1⟩))))
  simp only [frontFetch, if_neg n1, if_neg n2, if_neg n3, if_neg n4, if_neg n5, if_neg n6]

/-- C5 (witness, at an unknown method and path). -/
theorem router_unknown_404_witness :
    (frontFetch ⟨"PUT", "/elsewhere", none, none, none⟩).1 = 404 :=
  router_unknown_404 ⟨"PUT", "/elsewhere", none, none, none⟩ (by decide) (by decide)

/-- C10: `/internal/save-final` sets only the session's `final` field: the
messages, deal memory, rolling summary and turn counter of the stored state
are those of the loaded state, and a second invocation overwrites the
previous `final`. -/
theorem save_final_frame (storage : Option AgentState) (f1 f2 : Json) :
    (load (saveFinal storage f1)).messages = (load storage).messages ∧
    (load (saveFinal storage f1)).dealMemory = (load storage).dealMemory ∧
    (load (saveFinal storage f1)).rollingSummary = (load storage).rollingSummary ∧
    (load (saveFinal storage f1)).userTurnCount = (load storage).userTurnCount ∧
    (load (saveFinal storage f1)).final = some f1 ∧
    (load (saveFinal (saveFinal storage f1) f2)).final = some f2 :=
  ⟨rfl, rfl, rfl, rfl, rfl, rfl⟩

end SalesCoach
